import Mathlib

/-!
Verification of the OMR (optical mark recognition) backend pipeline,
file backend/app/omr_processor.py.

The pipeline stages that operate on raw pixel arrays (decoding, edge
detection, contour extraction, masking) are not representable in a shallow
embedding; their outputs are taken as abstract inputs:

* a detected contour is represented by its bounding box, a pair
  (width, height) of naturals, which is all the detection filters inspect;
* the per-bubble set-pixel counts produced by masking are represented by a
  list of naturals in the row-major order that the scoring loop visits them
  (top-to-bottom rows, left-to-right within a row).

Everything downstream of those inputs (the proximity score, the multi-scale
parameter search, the resize arithmetic, the row scanner, the confidence
formula, the answer decision, the result/error assembly) is translated
directly from the source.  Python floats are modelled by exact rationals.
-/

set_option maxHeartbeats 1000000

/-- Translated from calculate_proximity_score in omr_processor.py:
returns 0 when the expected count is 0, otherwise clamps
1 - |found - expected| / expected below at 0, adds a 0.1 bonus when
found / expected lies in [0.8, 1.2], and clamps the total above at 1. -/
def calculate_proximity_score (found_count expected_count : ℕ) : ℚ :=
  if expected_count = 0 then 0
  else
    let percentage_diff : ℚ :=
      |(found_count : ℚ) - (expected_count : ℚ)| / (expected_count : ℚ)
    let score : ℚ := max 0 (1 - percentage_diff)
    let score2 : ℚ :=
      if (4/5 : ℚ) ≤ (found_count : ℚ) / (expected_count : ℚ) ∧
          (found_count : ℚ) / (expected_count : ℚ) ≤ 6/5 then score + 1/10
      else score
    min 1 score2

/-- Claim C1: for every found count and every positive expected count, the
detection score equals max(0, 1 - |found - expected| / expected) plus a 0.1
bonus when found / expected lies in [0.8, 1.2], clamped above at 1, and the
returned value always lies in [0, 1]. -/
theorem calculate_proximity_score_spec (f e : ℕ) (he : 0 < e) :
    calculate_proximity_score f e =
      min 1 (max 0 (1 - |(f : ℚ) - (e : ℚ)| / (e : ℚ)) +
        (if (4/5 : ℚ) ≤ (f : ℚ) / (e : ℚ) ∧ (f : ℚ) / (e : ℚ) ≤ 6/5
          then 1/10 else 0)) ∧
    0 ≤ calculate_proximity_score f e ∧ calculate_proximity_score f e ≤ 1 := by
  have he' : e ≠ 0 := he.ne'
  constructor
  · simp only [calculate_proximity_score, if_neg he']
    by_cases hband : (4/5 : ℚ) ≤ (f : ℚ) / (e : ℚ) ∧ (f : ℚ) / (e : ℚ) ≤ 6/5
    · simp [hband]
    · simp [hband]
  · constructor
    · simp only [calculate_proximity_score, if_neg he']
      have h0 : (0 : ℚ) ≤ max 0 (1 - |(f : ℚ) - (e : ℚ)| / (e : ℚ)) :=
        le_max_left 0 _
      by_cases hband : (4/5 : ℚ) ≤ (f : ℚ) / (e : ℚ) ∧ (f : ℚ) / (e : ℚ) ≤ 6/5
      · simp only [if_pos hband]
        exact le_min (by norm_num) (by linarith)
      · simp only [if_neg hband]
        exact le_min (by norm_num) h0
    · simp only [calculate_proximity_score, if_neg he']
      exact min_le_left 1 _

/-- Claim C1 witness at found = 10, expected = 10. -/
theorem calculate_proximity_score_spec_witness :
    0 < 10 ∧ (0 ≤ calculate_proximity_score 10 10 ∧
      calculate_proximity_score 10 10 ≤ 1) :=
  ⟨by decide, (calculate_proximity_score_spec 10 10 (by decide)).2⟩

/-- Claim C9: an expected count of 0 short-circuits to score 0, so the
division by the expected count is never reached. -/
theorem calculate_proximity_score_zero_expected (f : ℕ) :
    calculate_proximity_score f 0 = 0 := by
  simp [calculate_proximity_score]

/-- Claim C3 counterexample: with expected = 10, the found counts 20 and 21
are both above the +20 percent bonus band, 20 is strictly closer to 10 than
21 is, yet the scores are equal (both 0), so the score does not strictly
decrease as the distance grows. -/
theorem score_not_strictly_decreasing_counterexample :
    (6/5 : ℚ) < (20 : ℚ) / (10 : ℚ) ∧ (6/5 : ℚ) < (21 : ℚ) / (10 : ℚ) ∧
    |(20 : ℚ) - (10 : ℚ)| < |(21 : ℚ) - (10 : ℚ)| ∧
    calculate_proximity_score 20 10 = calculate_proximity_score 21 10 := by
  refine ⟨by norm_num, by norm_num, by norm_num, ?_⟩
  simp only [calculate_proximity_score]
  norm_num

/-- Claim C3 (amended): for a fixed positive expected count e, the score
strictly decreases as |found - e| increases over found counts outside the
bonus band, as long as the larger distance stays within the region of
nonzero scores, i.e. the farther count is at most 2e; beyond 2e the score
saturates at 0. -/
theorem score_strictly_decreasing_outside_band (f1 f2 e : ℕ) (he : 0 < e)
    (hf2 : f2 ≤ 2 * e)
    (hb1 : (f1 : ℚ) / (e : ℚ) < 4/5 ∨ (6/5 : ℚ) < (f1 : ℚ) / (e : ℚ))
    (hb2 : (f2 : ℚ) / (e : ℚ) < 4/5 ∨ (6/5 : ℚ) < (f2 : ℚ) / (e : ℚ))
    (hd : |(f1 : ℚ) - (e : ℚ)| < |(f2 : ℚ) - (e : ℚ)|) :
    calculate_proximity_score f2 e < calculate_proximity_score f1 e := by
  have he' : e ≠ 0 := he.ne'
  have heQ : (0 : ℚ) < (e : ℚ) := by exact_mod_cast he
  have hnb1 : ¬((4/5 : ℚ) ≤ (f1 : ℚ) / (e : ℚ) ∧ (f1 : ℚ) / (e : ℚ) ≤ 6/5) := by
    rcases hb1 with h | h
    · exact fun hc => absurd hc.1 (not_le.mpr h)
    · exact fun hc => absurd hc.2 (not_le.mpr h)
  have hnb2 : ¬((4/5 : ℚ) ≤ (f2 : ℚ) / (e : ℚ) ∧ (f2 : ℚ) / (e : ℚ) ≤ 6/5) := by
    rcases hb2 with h | h
    · exact fun hc => absurd hc.1 (not_le.mpr h)
    · exact fun hc => absurd hc.2 (not_le.mpr h)
  -- the distance of f2 from e is at most e, hence so is that of f1
  have hd2 : |(f2 : ℚ) - (e : ℚ)| ≤ (e : ℚ) := by
    rw [abs_le]
    constructor
    · have : (0 : ℚ) ≤ (f2 : ℚ) := Nat.cast_nonneg f2
      linarith
    · have : (f2 : ℚ) ≤ 2 * (e : ℚ) := by exact_mod_cast hf2
      linarith
  have hd1 : |(f1 : ℚ) - (e : ℚ)| < (e : ℚ) := lt_of_lt_of_le hd hd2
  have habs1 : (0 : ℚ) ≤ |(f1 : ℚ) - (e : ℚ)| := abs_nonneg _
  have habs2 : (0 : ℚ) ≤ |(f2 : ℚ) - (e : ℚ)| := abs_nonneg _
  have hq1 : |(f1 : ℚ) - (e : ℚ)| / (e : ℚ) < 1 := by
    rw [div_lt_one heQ]; exact hd1
  have hq2 : |(f2 : ℚ) - (e : ℚ)| / (e : ℚ) ≤ 1 := by
    rw [div_le_one heQ]; exact hd2
  have hq1n : (0 : ℚ) ≤ |(f1 : ℚ) - (e : ℚ)| / (e : ℚ) := div_nonneg habs1 heQ.le
  have hq2n : (0 : ℚ) ≤ |(f2 : ℚ) - (e : ℚ)| / (e : ℚ) := div_nonneg habs2 heQ.le
  have hqlt : |(f1 : ℚ) - (e : ℚ)| / (e : ℚ) < |(f2 : ℚ) - (e : ℚ)| / (e : ℚ) :=
    (div_lt_div_iff_of_pos_right heQ).mpr hd
  simp only [calculate_proximity_score, if_neg he', if_neg hnb1, if_neg hnb2]
  have e1 : max (0 : ℚ) (1 - |(f1 : ℚ) - (e : ℚ)| / (e : ℚ)) =
      1 - |(f1 : ℚ) - (e : ℚ)| / (e : ℚ) := max_eq_right (by linarith)
  have e2 : max (0 : ℚ) (1 - |(f2 : ℚ) - (e : ℚ)| / (e : ℚ)) =
      1 - |(f2 : ℚ) - (e : ℚ)| / (e : ℚ) := max_eq_right (by linarith)
  rw [e1, e2, min_eq_right (by linarith), min_eq_right (by linarith)]
  linarith

/-- Claim C3 (amended) witness: expected = 10, found counts 15 and 13, both
above the bonus band, 15 at most 2 times 10. -/
theorem score_strictly_decreasing_outside_band_witness :
    (0 < 10 ∧ 15 ≤ 2 * 10) ∧
    calculate_proximity_score 15 10 < calculate_proximity_score 13 10 :=
  ⟨⟨by decide, by decide⟩,
    score_strictly_decreasing_outside_band 13 15 10 (by decide) (by decide)
      (by norm_num) (by norm_num) (by norm_num)⟩

/-- Translated from the resize step of process_omr_sheet: the isotropic
scale factor applied to the warped sheet, the minimum of
max(1200, width) / width and max(1200, height) / height. -/
def resize_scale (w h : ℕ) : ℚ :=
  min (((max 1200 w : ℕ) : ℚ) / (w : ℚ)) (((max 1200 h : ℕ) : ℚ) / (h : ℚ))

/-- Translated from the resize step of process_omr_sheet: the new
dimensions, each original dimension multiplied by the common scale and
truncated to an integer. -/
def resize_dims (w h : ℕ) : ℕ × ℕ :=
  (⌊(w : ℚ) * resize_scale w h⌋₊, ⌊(h : ℚ) * resize_scale w h⌋₊)

/-- Claim C2 counterexample: a 600 x 1500 warped sheet is left at
600 x 1500 (the scale is 1), so the first dimension stays below the 1200
minimum, refuting that both output dimensions are always at least 1200. -/
theorem resize_dims_counterexample :
    resize_dims 600 1500 = (600, 1500) ∧ ¬ 1200 ≤ (resize_dims 600 1500).1 := by
  constructor
  · show (⌊(600 : ℚ) * resize_scale 600 1500⌋₊, ⌊(1500 : ℚ) * resize_scale 600 1500⌋₊) = _
    norm_num [resize_scale]
  · intro hle
    have : (resize_dims 600 1500).1 = 600 := by
      show ⌊(600 : ℚ) * resize_scale 600 1500⌋₊ = 600
      norm_num [resize_scale]
    omega

/-- The resize scale never downscales. -/
theorem one_le_resize_scale (w h : ℕ) (hw : 0 < w) (hh : 0 < h) :
    1 ≤ resize_scale w h := by
  have hwQ : (0 : ℚ) < (w : ℚ) := by exact_mod_cast hw
  have hhQ : (0 : ℚ) < (h : ℚ) := by exact_mod_cast hh
  refine le_min ?_ ?_
  · rw [le_div_iff₀ hwQ, one_mul]
    exact_mod_cast le_max_right 1200 w
  · rw [le_div_iff₀ hhQ, one_mul]
    exact_mod_cast le_max_right 1200 h

/-- Claim C2 (amended): for every positive warped sheet size, a single
isotropic scale factor at least 1 is applied to both dimensions (so the
image is never downscaled and the aspect is preserved up to the integer
truncation), and the larger of the two output dimensions is at least 1200;
the smaller output dimension can remain below 1200. -/
theorem resize_dims_spec (w h : ℕ) (hw : 0 < w) (hh : 0 < h) :
    1 ≤ resize_scale w h ∧
    resize_dims w h = (⌊(w : ℚ) * resize_scale w h⌋₊, ⌊(h : ℚ) * resize_scale w h⌋₊) ∧
    w ≤ (resize_dims w h).1 ∧ h ≤ (resize_dims w h).2 ∧
    1200 ≤ max (resize_dims w h).1 (resize_dims w h).2 := by
  have hwQ : (0 : ℚ) < (w : ℚ) := by exact_mod_cast hw
  have hhQ : (0 : ℚ) < (h : ℚ) := by exact_mod_cast hh
  have hs : 1 ≤ resize_scale w h := one_le_resize_scale w h hw hh
  have hup1 : w ≤ (resize_dims w h).1 := by
    apply Nat.le_floor
    calc ((w : ℕ) : ℚ) = (w : ℚ) * 1 := by ring
    _ ≤ (w : ℚ) * resize_scale w h := by
        exact mul_le_mul_of_nonneg_left hs hwQ.le
  have hup2 : h ≤ (resize_dims w h).2 := by
    apply Nat.le_floor
    calc ((h : ℕ) : ℚ) = (h : ℚ) * 1 := by ring
    _ ≤ (h : ℚ) * resize_scale w h := by
        exact mul_le_mul_of_nonneg_left hs hhQ.le
  refine ⟨hs, rfl, hup1, hup2, ?_⟩
  -- if either input dimension already reaches 1200 we are done, since the
  -- resize never shrinks; otherwise the scale is exactly 1200 over the
  -- larger dimension, which is mapped exactly onto 1200
  by_cases hw12 : 1200 ≤ w
  · exact le_max_of_le_left (le_trans hw12 hup1)
  by_cases hh12 : 1200 ≤ h
  · exact le_max_of_le_right (le_trans hh12 hup2)
  push_neg at hw12 hh12
  have hmw : max 1200 w = 1200 := max_eq_left hw12.le
  have hmh : max 1200 h = 1200 := max_eq_left hh12.le
  rcases le_total w h with hwh | hhw
  · -- h is the larger dimension: the scale is 1200 / h and the new height
    -- is exactly 1200
    have hsy : resize_scale w h = (1200 : ℚ) / (h : ℚ) := by
      rw [resize_scale, hmw, hmh]
      refine min_eq_right ?_
      apply div_le_div_of_nonneg_left (by norm_num) hwQ
      exact_mod_cast hwh
    apply le_max_of_le_right
    show (1200 : ℕ) ≤ ⌊(h : ℚ) * resize_scale w h⌋₊
    rw [hsy, mul_div_cancel₀ _ hhQ.ne']
    simp
  · have hsx : resize_scale w h = (1200 : ℚ) / (w : ℚ) := by
      rw [resize_scale, hmw, hmh]
      refine min_eq_left ?_
      apply div_le_div_of_nonneg_left (by norm_num) hhQ
      exact_mod_cast hhw
    apply le_max_of_le_left
    show (1200 : ℕ) ≤ ⌊(w : ℚ) * resize_scale w h⌋₊
    rw [hsx, mul_div_cancel₀ _ hwQ.ne']
    simp

/-- Claim C2 (amended) witness at a 50 x 60 warped sheet. -/
theorem resize_dims_spec_witness :
    (0 < 50 ∧ 0 < 60) ∧
    (1 ≤ resize_scale 50 60 ∧
      resize_dims 50 60 =
        (⌊(50 : ℚ) * resize_scale 50 60⌋₊, ⌊(60 : ℚ) * resize_scale 50 60⌋₊) ∧
      50 ≤ (resize_dims 50 60).1 ∧ 60 ≤ (resize_dims 50 60).2 ∧
      1200 ≤ max (resize_dims 50 60).1 (resize_dims 50 60).2) :=
  ⟨⟨by decide, by decide⟩, resize_dims_spec 50 60 (by decide) (by decide)⟩

/-- Common shape of the two selection loops in omr_processor.py (the
multi-scale search over parameter combinations, and the per-row marked
bubble scan): walk a list keeping the first element whose score strictly
exceeds the best score so far, together with its position. -/
def bestScan {α β : Type} [LinearOrder β] (f : α → β) :
    List α → ℕ → Option (ℕ × α) → β → Option (ℕ × α) × β
  | [], _, best, bestScore => (best, bestScore)
  | x :: xs, idx, best, bestScore =>
    if bestScore < f x then bestScan f xs (idx + 1) (some (idx, x)) (f x)
    else bestScan f xs (idx + 1) best bestScore

/-- When no element beats the running best score, the scan returns its
accumulator unchanged. -/
theorem bestScan_of_forall_le {α β : Type} [LinearOrder β] (f : α → β) :
    ∀ (l : List α) (idx : ℕ) (b : Option (ℕ × α)) (s : β),
      (∀ x ∈ l, f x ≤ s) → bestScan f l idx b s = (b, s) := by
  intro l
  induction l with
  | nil => intro idx b s _; rfl
  | cons x xs ih =>
    intro idx b s h
    have hx : ¬ s < f x := not_lt.mpr (h x (List.mem_cons_self x xs))
    rw [bestScan, if_neg hx]
    exact ih (idx + 1) b s fun y hy => h y (List.mem_cons_of_mem x hy)

/-- When some element beats the running best score, the scan returns the
first element attaining the maximum score: its score beats every earlier
element strictly and dominates every element of the list. -/
theorem bestScan_improve {α β : Type} [LinearOrder β] (f : α → β) (l : List α) :
    ∀ (idx : ℕ) (b : Option (ℕ × α)) (s : β), (∃ x ∈ l, s < f x) →
      ∃ i, ∃ hi : i < l.length,
        bestScan f l idx b s =
          (some (idx + i, l.get ⟨i, hi⟩), f (l.get ⟨i, hi⟩)) ∧
        s < f (l.get ⟨i, hi⟩) ∧
        (∀ j, ∀ hj : j < l.length, j < i → f (l.get ⟨j, hj⟩) < f (l.get ⟨i, hi⟩)) ∧
        (∀ x ∈ l, f x ≤ f (l.get ⟨i, hi⟩)) := by
  induction l with
  | nil =>
    intro idx b s h
    rcases h with ⟨x, hx, _⟩
    exact absurd hx (List.not_mem_nil x)
  | cons x xs ih =>
    intro idx b s h
    by_cases hx : s < f x
    · by_cases himp : ∃ y ∈ xs, f x < f y
      · obtain ⟨i, hi, heq, hlt, hbef, hmax⟩ := ih (idx + 1) (some (idx, x)) (f x) himp
        refine ⟨i + 1, Nat.succ_lt_succ hi, ?_, lt_trans hx hlt, ?_, ?_⟩
        · rw [bestScan, if_pos hx, heq]
          have hidx : idx + 1 + i = idx + (i + 1) := by omega
          simp [hidx]
        · intro j hj hji
          match j with
          | 0 => simpa using hlt
          | k + 1 =>
            have hk : k < xs.length := by simpa using hj
            have := hbef k hk (by omega)
            simpa using this
        · intro y hy
          rcases List.mem_cons.mp hy with rfl | hy'
          · exact le_of_lt (by simpa using hlt)
          · exact hmax y hy'
      · push_neg at himp
        have hstop : bestScan f xs (idx + 1) (some (idx, x)) (f x) =
            (some (idx, x), f x) :=
          bestScan_of_forall_le f xs (idx + 1) _ _ himp
        refine ⟨0, by simp, ?_, by simpa using hx, ?_, ?_⟩
        · rw [bestScan, if_pos hx, hstop]
          simp
        · intro j hj hji; omega
        · intro y hy
          rcases List.mem_cons.mp hy with rfl | hy'
          · simp
          · simpa using himp y hy'
    · have hxle : f x ≤ s := not_lt.mp hx
      have hxs : ∃ y ∈ xs, s < f y := by
        rcases h with ⟨y, hy, hys⟩
        rcases List.mem_cons.mp hy with rfl | hy'
        · exact absurd hys hx
        · exact ⟨y, hy', hys⟩
      obtain ⟨i, hi, heq, hlt, hbef, hmax⟩ := ih (idx + 1) b s hxs
      refine ⟨i + 1, Nat.succ_lt_succ hi, ?_, by simpa using hlt, ?_, ?_⟩
      · rw [bestScan, if_neg hx, heq]
        have hidx : idx + 1 + i = idx + (i + 1) := by omega
        simp [hidx]
      · intro j hj hji
        match j with
        | 0 =>
          have : f x ≤ s := hxle
          have := lt_of_le_of_lt this hlt
          simpa using this
        | k + 1 =>
          have hk : k < xs.length := by simpa using hj
          have := hbef k hk (by omega)
          simpa using this
      · intro y hy
        rcases List.mem_cons.mp hy with rfl | hy'
        · exact le_of_lt (by simpa using lt_of_le_of_lt hxle hlt)
        · exact hmax y hy'

/-- Every element of a list of naturals is at most the fold of max over it. -/
theorem le_foldr_max {x : ℕ} : ∀ {l : List ℕ}, x ∈ l → x ≤ l.foldr max 0 := by
  intro l
  induction l with
  | nil => intro h; exact absurd h (List.not_mem_nil x)
  | cons y ys ih =>
    intro h
    rcases List.mem_cons.mp h with rfl | h'
    · exact le_max_left _ _
    · exact le_trans (ih h') (le_max_right _ _)

/-- The fold of max over a list of naturals is at most any upper bound of
the list. -/
theorem foldr_max_le {c : ℕ} : ∀ {l : List ℕ}, (∀ x ∈ l, x ≤ c) →
    l.foldr max 0 ≤ c := by
  intro l
  induction l with
  | nil => intro _; exact Nat.zero_le c
  | cons y ys ih =>
    intro h
    refine max_le (h y (List.mem_cons_self y ys)) (ih ?_)
    exact fun x hx => h x (List.mem_cons_of_mem y hx)

/-- The fold of max over a nonempty list of naturals is an element of it. -/
theorem foldr_max_mem : ∀ {l : List ℕ}, l ≠ [] → l.foldr max 0 ∈ l := by
  intro l
  induction l with
  | nil => intro h; exact absurd rfl h
  | cons y ys ih =>
    intro _
    by_cases hys : ys = []
    · subst hys; simp
    · rcases max_choice y (ys.foldr max 0) with h | h
      · rw [List.foldr_cons, h]; exact List.mem_cons_self y ys
      · rw [List.foldr_cons, h]; exact List.mem_cons_of_mem y (ih hys)

/-- The fold of max over a list of naturals only depends on the multiset of
its elements. -/
theorem foldr_max_perm {l l' : List ℕ} (p : l.Perm l') :
    l.foldr max 0 = l'.foldr max 0 := by
  refine le_antisymm (foldr_max_le ?_) (foldr_max_le ?_)
  · exact fun x hx => le_foldr_max (p.mem_iff.mp hx)
  · exact fun x hx => le_foldr_max (p.mem_iff.mpr hx)

/-- The per-question decision recorded in the responses mapping: either the
string "No Response" or a letter computed as chr(ord('A') + index). -/
inductive Answer where
  | noResponse : Answer
  | letter : Char → Answer
deriving DecidableEq, Repr

/-- Translated from the marked-bubble scan of process_omr_sheet: starting
from bubbled_pixel_count = -1 and marked_index = -1, each option whose
set-pixel count strictly exceeds the running best replaces it.  Returns
(bubbled_pixel_count, marked_index). -/
def scan_row (counts : List ℕ) : ℤ × ℤ :=
  match (bestScan (fun c : ℕ => (c : ℤ)) counts 0 none (-1)).1 with
  | some (i, c) => ((c : ℤ), (i : ℤ))
  | none => (-1, -1)

/-- The builtin round applied to an exact rational: nearest integer, ties
to the even integer (the rounding Python applies when the confidence is
recorded). -/
def round_half_even (q : ℚ) : ℤ :=
  if q - ⌊q⌋ < 1/2 then ⌊q⌋
  else if 1/2 < q - ⌊q⌋ then ⌊q⌋ + 1
  else if ⌊q⌋ % 2 = 0 then ⌊q⌋ else ⌊q⌋ + 1

/-- round(x, 3): round to three decimal places, ties to even. -/
def round3 (q : ℚ) : ℚ := (round_half_even (q * 1000) : ℚ) / 1000

/-- Translated from the confidence computation of process_omr_sheet: with
more than one option the counts are sorted in decreasing order and the
recorded confidence is round((top1 - top2) / top1, 3) when top1 is
positive and 0 otherwise; with a single option the confidence is 1. -/
def row_confidence (counts : List ℕ) : ℚ :=
  if 1 < counts.length then
    let sorted_counts := List.insertionSort (fun a b => b ≤ a) counts
    let top1 := sorted_counts.getD 0 0
    let top2 := sorted_counts.getD 1 0
    if 0 < top1 then round3 (((top1 : ℚ) - (top2 : ℚ)) / (top1 : ℚ)) else 0
  else 1

/-- Translated from the answer decision of process_omr_sheet: "No Response"
unless the winning pixel count strictly exceeds the threshold, in which
case the letter chr(ord('A') + marked_index). -/
def row_answer (counts : List ℕ) (min_pixel_threshold : ℤ) : Answer :=
  let s := scan_row counts
  if min_pixel_threshold < s.1 then Answer.letter (Char.ofNat (65 + s.2.toNat))
  else Answer.noResponse

/-- Claim C4 (amended): for every nonempty question row, the scan selects
the option with the maximum set-pixel count, ties broken by the first
(leftmost) occurrence; the recorded confidence is (top1 - top2) / top1
rounded to three decimal places for rows of at least two options with a
positive winning count, 0 for such rows with winning count 0, and 1 for a
single-option row; and the recorded answer is "No Response" exactly when
the winning count does not exceed the threshold, otherwise the letter at
ord('A') plus the winning index. -/
theorem answer_scorer_row_spec (counts : List ℕ) (thr : ℤ) (hne : counts ≠ []) :
    (scan_row counts).1 = ((counts.foldr max 0 : ℕ) : ℤ) ∧
    (∃ i, ∃ hi : i < counts.length,
      (scan_row counts).2 = (i : ℤ) ∧
      counts.get ⟨i, hi⟩ = counts.foldr max 0 ∧
      (∀ j, ∀ hj : j < counts.length, j < i →
        counts.get ⟨j, hj⟩ < counts.foldr max 0) ∧
      row_answer counts thr =
        (if ((counts.foldr max 0 : ℕ) : ℤ) ≤ thr then Answer.noResponse
          else Answer.letter (Char.ofNat (65 + i)))) ∧
    row_confidence counts =
      (if 1 < counts.length then
        (if 0 < counts.foldr max 0 then
          round3 ((((counts.foldr max 0 : ℕ) : ℚ) -
              (((counts.erase (counts.foldr max 0)).foldr max 0 : ℕ) : ℚ)) /
            ((counts.foldr max 0 : ℕ) : ℚ))
        else 0)
      else 1) := by
  obtain ⟨c0, rest, rfl⟩ := List.exists_cons_of_ne_nil hne
  set counts := c0 :: rest with hcounts
  have himp : ∃ x ∈ counts, (-1 : ℤ) < (x : ℤ) := by
    refine ⟨c0, List.mem_cons_self c0 rest, ?_⟩
    have := Int.natCast_nonneg c0
    omega
  obtain ⟨i, hi, heq, _, hbef, hmax⟩ :=
    bestScan_improve (fun c : ℕ => (c : ℤ)) counts 0 none (-1) himp
  have hscan : scan_row counts = ((counts.get ⟨i, hi⟩ : ℤ), (i : ℤ)) := by
    unfold scan_row
    rw [heq]
    simp
  have hgetM : counts.get ⟨i, hi⟩ = counts.foldr max 0 := by
    refine le_antisymm (le_foldr_max (counts.get_mem i hi)) (foldr_max_le ?_)
    intro x hx
    exact_mod_cast hmax x hx
  refine ⟨by rw [hscan, hgetM], ⟨i, hi, by rw [hscan], hgetM, ?_, ?_⟩, ?_⟩
  · intro j hj hji
    have := hbef j hj hji
    rw [hgetM] at this
    exact_mod_cast this
  · unfold row_answer
    rw [hscan]
    by_cases hM : ((counts.foldr max 0 : ℕ) : ℤ) ≤ thr
    · rw [if_neg (by rw [hgetM]; omega), if_pos hM]
    · rw [if_pos (by rw [hgetM]; omega), if_neg hM]
      simp
  · by_cases hlen : 1 < counts.length
    · haveI ht : IsTotal ℕ (fun a b : ℕ => b ≤ a) := ⟨fun a b => le_total b a⟩
      haveI htr : IsTrans ℕ (fun a b : ℕ => b ≤ a) :=
        ⟨fun _ _ _ hab hbc => le_trans hbc hab⟩
      have hsort : List.Sorted (fun a b : ℕ => b ≤ a)
          (List.insertionSort (fun a b : ℕ => b ≤ a) counts) :=
        List.sorted_insertionSort _ counts
      have hperm := List.perm_insertionSort (fun a b : ℕ => b ≤ a) counts
      have hlensort :
          (List.insertionSort (fun a b : ℕ => b ≤ a) counts).length =
            counts.length := hperm.length_eq
      obtain ⟨a, l1, h1⟩ := List.exists_cons_of_ne_nil
        (show List.insertionSort (fun a b : ℕ => b ≤ a) counts ≠ [] by
          intro hnil
          rw [hnil] at hlensort
          simp at hlensort
          omega)
      obtain ⟨b, t, h2⟩ := List.exists_cons_of_ne_nil
        (show l1 ≠ [] by
          intro hnil
          rw [h1, hnil] at hlensort
          simp at hlensort
          omega)
      rw [h2] at h1
      rw [h1] at hsort hperm
      -- the head of the decreasing sort is the maximum of the row
      have haM : a = counts.foldr max 0 := by
        refine le_antisymm (le_foldr_max ?_) (foldr_max_le ?_)
        · exact hperm.mem_iff.mp (List.mem_cons_self a _)
        · intro x hx
          have hx' : x ∈ a :: b :: t := hperm.mem_iff.mpr hx
          rcases List.mem_cons.mp hx' with rfl | hx''
          · exact le_refl x
          · exact List.rel_of_sorted_cons hsort x hx''
      -- the second entry of the sort is the maximum after removing one
      -- occurrence of the maximum
      have hbM : b = (counts.erase a).foldr max 0 := by
        have herase : (counts.erase a).Perm (b :: t) := by
          have h3 := (hperm.erase a).symm
          rw [List.erase_cons_head] at h3
          exact h3
        rw [foldr_max_perm herase]
        refine (le_antisymm (foldr_max_le ?_)
          (le_foldr_max (List.mem_cons_self b t))).symm
        intro x hx
        rcases List.mem_cons.mp hx with rfl | hx'
        · exact le_refl x
        · exact List.rel_of_sorted_cons hsort.of_cons x hx'
      simp only [row_confidence, if_pos hlen, h1]
      rw [← haM, ← hbM]
      simp
    · simp only [row_confidence, if_neg hlen]

/-- Claim C4 witness on the row [100, 700, 300] with threshold 500. -/
theorem answer_scorer_row_spec_witness :
    ([100, 700, 300] : List ℕ) ≠ [] ∧
    (scan_row [100, 700, 300]).1 =
      ((([100, 700, 300] : List ℕ).foldr max 0 : ℕ) : ℤ) :=
  ⟨by decide, (answer_scorer_row_spec [100, 700, 300] 500 (by decide)).1⟩

/-- Claim C4 counterexample: on the row with pixel counts [3, 1] the
quotient (top1 - top2) / top1 is 2/3, but the recorded confidence is the
3-decimal rounding 0.667, so the recorded confidence does not equal
(top1 - top2) / top1 exactly. -/
theorem row_confidence_rounding_counterexample :
    row_confidence [3, 1] = 667/1000 ∧
    row_confidence [3, 1] ≠ (((3 : ℚ) - 1) / 3) := by
  have hsorted : List.insertionSort (fun a b : ℕ => b ≤ a) [3, 1] = [3, 1] := by
    decide
  have hfl : ⌊((2 : ℚ)/3 * 1000)⌋ = 666 := by
    rw [Int.floor_eq_iff]
    norm_num
  have hr3 : round3 ((2 : ℚ)/3) = 667/1000 := by
    unfold round3 round_half_even
    rw [hfl]
    norm_num
  have hq : (((3 : ℕ) : ℚ) - ((1 : ℕ) : ℚ)) / ((3 : ℕ) : ℚ) = (2 : ℚ)/3 := by
    norm_num
  have hval : row_confidence [3, 1] = 667/1000 := by
    simp only [row_confidence, hsorted, List.getD, List.length_cons]
    norm_num [hq, hr3]
  refine ⟨hval, ?_⟩
  rw [hval]
  norm_num

/-- Translated from the row extraction of process_omr_sheet: the slice of
num_options consecutive pixel counts starting at position i. -/
def row_slice (counts : List ℕ) (i num_options : ℕ) : List ℕ :=
  (counts.drop i).take num_options

/-- Translated from process_omr_sheet:
total_rows_to_process = min(num_questions, found_bubbles // num_options). -/
def total_rows_to_process (num_questions num_options found_bubbles : ℕ) : ℕ :=
  min num_questions (found_bubbles / num_options)

/-- Translated from the response loop of process_omr_sheet: the responses
mapping, with stringified 1-based question numbers modelled as the naturals
1 .. total_rows_to_process, in insertion order. -/
def responses_1based (counts : List ℕ) (num_questions num_options : ℕ)
    (thr : ℤ) : List (ℕ × Answer) :=
  (List.range (total_rows_to_process num_questions num_options counts.length)).map
    (fun q_idx => (q_idx + 1, row_answer (row_slice counts (q_idx * num_options) num_options) thr))

/-- Translated from the response loop of process_omr_sheet: the confidence
mapping, keyed like the responses mapping. -/
def confidence_1based (counts : List ℕ) (num_questions num_options : ℕ) :
    List (ℕ × ℚ) :=
  (List.range (total_rows_to_process num_questions num_options counts.length)).map
    (fun q_idx => (q_idx + 1, row_confidence (row_slice counts (q_idx * num_options) num_options)))

/-- Number of questions whose recorded answer differs from "No Response". -/
def num_answered (counts : List ℕ) (num_questions num_options : ℕ)
    (thr : ℤ) : ℕ :=
  (responses_1based counts num_questions num_options thr).countP
    (fun p => decide (p.2 ≠ Answer.noResponse))

/-- Raising the threshold can only turn answers into "No Response", never
the other way: the per-row decision is monotone in the threshold. -/
theorem row_answer_none_mono (c : List ℕ) {t1 t2 : ℤ} (h : t1 ≤ t2)
    (hn : row_answer c t1 = Answer.noResponse) :
    row_answer c t2 = Answer.noResponse := by
  unfold row_answer at hn ⊢
  by_cases hlt : t2 < (scan_row c).1
  · rw [if_pos (lt_of_le_of_lt h hlt)] at hn
    exact absurd hn (by simp)
  · rw [if_neg hlt]

/-- countP is monotone under pointwise implication of the predicates. -/
theorem countP_le_countP {α : Type} (p q : α → Bool) :
    ∀ l : List α, (∀ a ∈ l, p a = true → q a = true) →
      l.countP p ≤ l.countP q := by
  intro l
  induction l with
  | nil => intro _; simp
  | cons x xs ih =>
    intro h
    rw [List.countP_cons, List.countP_cons]
    have hxs := ih fun a ha => h a (List.mem_cons_of_mem x ha)
    by_cases hx : p x = true
    · rw [if_pos hx, if_pos (h x (List.mem_cons_self x xs) hx)]
      omega
    · rw [if_neg hx]
      omega

/-- Claim C5: with the image-derived pixel counts fixed, raising the
minimum pixel threshold from t1 to t2 never increases the number of
questions answered with something other than "No Response", and every
question recorded as "No Response" at t1 is still "No Response" at t2. -/
theorem threshold_monotonicity (counts : List ℕ) (num_questions num_options : ℕ)
    (t1 t2 : ℤ) (h1 : 0 < t1) (h12 : t1 < t2) :
    num_answered counts num_questions num_options t2 ≤
      num_answered counts num_questions num_options t1 ∧
    ∀ q : ℕ, (q, Answer.noResponse) ∈ responses_1based counts num_questions num_options t1 →
      (q, Answer.noResponse) ∈ responses_1based counts num_questions num_options t2 := by
  constructor
  · unfold num_answered responses_1based
    rw [List.countP_map, List.countP_map]
    apply countP_le_countP
    intro q_idx _ hp
    simp only [Function.comp_apply, decide_eq_true_eq] at hp ⊢
    intro hnone
    exact hp (row_answer_none_mono _ h12.le hnone)
  · intro q hq
    simp only [responses_1based, List.mem_map, List.mem_range] at hq ⊢
    obtain ⟨j, hj, hjq⟩ := hq
    refine ⟨j, hj, ?_⟩
    have hkey : j + 1 = q := congrArg Prod.fst hjq
    have hval : row_answer (row_slice counts (j * num_options) num_options) t1 =
        Answer.noResponse := congrArg Prod.snd hjq
    rw [Prod.ext_iff]
    exact ⟨hkey, row_answer_none_mono _ h12.le hval⟩

/-- Claim C5 witness: rows of pixel counts [600, 0, 0, 700] as 2 questions
of 2 options, thresholds 500 and 650. -/
theorem threshold_monotonicity_witness :
    ((0 : ℤ) < 500 ∧ (500 : ℤ) < 650) ∧
    num_answered [600, 0, 0, 700] 2 2 650 ≤ num_answered [600, 0, 0, 700] 2 2 500 :=
  ⟨⟨by decide, by decide⟩,
    (threshold_monotonicity [600, 0, 0, 700] 2 2 500 650 (by decide) (by decide)).1⟩

/-- The result dictionary assembled by process_omr_sheet (the
processing_time_seconds field, a wall-clock measurement, is outside the
embedding).  The stringified 1-based keys of the responses and confidence
mappings are modelled as naturals. -/
structure ProcessingResult where
  responses : List (ℕ × Answer)
  image_width : ℕ
  image_height : ℕ
  bubbles_found : ℕ
  bubbles_expected : ℕ
  questions_processed : ℕ
  confidence_scores : List (ℕ × ℚ)
  min_pixel_threshold_used : ℤ
deriving DecidableEq, Repr

/-- The failure raised by process_omr_sheet when too few bubbles survive
detection; the source raises OMRProcessingError with a message carrying the
found count, the expected count and the input image dimensions, modelled
here as structured fields. -/
inductive OMRErrorKind where
  | insufficientBubbles (found expected width height : ℕ) : OMRErrorKind
deriving DecidableEq, Repr

/-- Translated from the tail of process_omr_sheet: the result assembled on
the success path. -/
def mk_processing_result (counts : List ℕ) (num_questions num_options w h : ℕ)
    (thr : ℤ) : ProcessingResult :=
  ⟨responses_1based counts num_questions num_options thr,
    w, h, counts.length, num_questions * num_options,
    total_rows_to_process num_questions num_options counts.length,
    confidence_1based counts num_questions num_options, thr⟩

/-- Translated from the tail of process_omr_sheet: after detection (the
multi-scale search and, when its score is below 0.3, the two-tier
fallback), found_bubbles is compared against expected_bubbles =
num_questions * num_options; a shortfall raises the insufficient-bubbles
error and otherwise the full result is assembled.  The list counts holds
the per-bubble pixel counts of the finally retained contours, so
counts.length is found_bubbles. -/
def process_after_detection (counts : List ℕ) (num_questions num_options w h : ℕ)
    (thr : ℤ) : Except OMRErrorKind ProcessingResult :=
  if counts.length < num_questions * num_options then
    Except.error (OMRErrorKind.insufficientBubbles counts.length
      (num_questions * num_options) w h)
  else
    Except.ok (mk_processing_result counts num_questions num_options w h thr)

/-- Claim C7: the pipeline fails with the insufficient-bubbles error
exactly when the final bubble count is below num_questions * num_options;
the error carries the found count, the expected count and the image
dimensions; and on failure no result is returned, while otherwise the
fully assembled result is. -/
theorem insufficient_bubbles_iff (counts : List ℕ)
    (num_questions num_options w h : ℕ) (thr : ℤ) :
    (process_after_detection counts num_questions num_options w h thr =
        Except.error (OMRErrorKind.insufficientBubbles counts.length
          (num_questions * num_options) w h) ↔
      counts.length < num_questions * num_options) ∧
    (counts.length < num_questions * num_options →
      ∀ r : ProcessingResult,
        process_after_detection counts num_questions num_options w h thr ≠
          Except.ok r) ∧
    (¬ counts.length < num_questions * num_options →
      process_after_detection counts num_questions num_options w h thr =
        Except.ok (mk_processing_result counts num_questions num_options w h thr)) := by
  refine ⟨⟨fun hEq => ?_, fun hlt => ?_⟩, fun hlt r => ?_, fun hge => ?_⟩
  · by_contra hge
    rw [process_after_detection, if_neg hge] at hEq
    exact Except.noConfusion hEq
  · rw [process_after_detection, if_pos hlt]
  · rw [process_after_detection, if_pos hlt]
    exact fun hEq => Except.noConfusion hEq
  · rw [process_after_detection, if_neg hge]

/-- Claim C7 witness: an empty contour list against 1 question of 1 option
on a 640 x 480 image fails with the structured error. -/
theorem insufficient_bubbles_iff_witness :
    process_after_detection [] 1 1 640 480 500 =
      Except.error (OMRErrorKind.insufficientBubbles 0 1 640 480) :=
  ((insufficient_bubbles_iff [] 1 1 640 480 500).1).mpr (by decide)

/-- Claim C6: on every successful run, questions_processed equals
min(num_questions, bubbles_found / num_options), and the key lists of both
the responses and the confidence mappings are exactly 1, 2, ...,
questions_processed, each exactly once and nothing else. -/
theorem row_completeness (counts : List ℕ) (num_questions num_options w h : ℕ)
    (thr : ℤ) (hopt : 0 < num_options) (r : ProcessingResult)
    (hok : process_after_detection counts num_questions num_options w h thr =
      Except.ok r) :
    r.questions_processed = min num_questions (counts.length / num_options) ∧
    r.responses.map Prod.fst = List.range' 1 r.questions_processed ∧
    r.confidence_scores.map Prod.fst = List.range' 1 r.questions_processed ∧
    (List.range' 1 r.questions_processed).Nodup := by
  have hr : r = mk_processing_result counts num_questions num_options w h thr := by
    rw [process_after_detection] at hok
    by_cases hlt : counts.length < num_questions * num_options
    · rw [if_pos hlt] at hok
      exact Except.noConfusion hok
    · rw [if_neg hlt] at hok
      exact (Except.ok.injEq _ _ ▸ congrArg id hok) ▸ rfl
  subst hr
  refine ⟨rfl, ?_, ?_, List.nodup_range' 1 _⟩
  · show (responses_1based counts num_questions num_options thr).map Prod.fst = _
    rw [responses_1based, List.map_map]
    show (List.range (total_rows_to_process num_questions num_options counts.length)).map
      (fun q => q + 1) = _
    rw [List.range'_eq_map_range]
    simp only [Nat.add_comm]
    rfl
  · show (confidence_1based counts num_questions num_options).map Prod.fst = _
    rw [confidence_1based, List.map_map]
    show (List.range (total_rows_to_process num_questions num_options counts.length)).map
      (fun q => q + 1) = _
    rw [List.range'_eq_map_range]
    simp only [Nat.add_comm]
    rfl

/-- Claim C6 witness: a successful run on 2 bubbles for 1 question of 2
options. -/
theorem row_completeness_witness :
    (mk_processing_result [600, 0] 1 2 10 20 500).questions_processed =
      min 1 (([600, 0] : List ℕ).length / 2) :=
  (row_completeness [600, 0] 1 2 10 20 500 (by decide)
    (mk_processing_result [600, 0] 1 2 10 20 500) rfl).1

/-- Claim C10: on every successful run the min formula never binds on its
second argument: success forces bubbles_found to be at least
num_questions * num_options, hence bubbles_found / num_options is at least
num_questions and questions_processed equals num_questions exactly. -/
theorem questions_processed_equals_num_questions (counts : List ℕ)
    (num_questions num_options w h : ℕ) (thr : ℤ) (hopt : 0 < num_options)
    (r : ProcessingResult)
    (hok : process_after_detection counts num_questions num_options w h thr =
      Except.ok r) :
    r.questions_processed = num_questions := by
  have hge : num_questions * num_options ≤ counts.length := by
    by_contra hlt
    push_neg at hlt
    rw [process_after_detection, if_pos hlt] at hok
    exact Except.noConfusion hok
  have hr : r = mk_processing_result counts num_questions num_options w h thr := by
    rw [process_after_detection, if_neg (not_lt.mpr hge)] at hok
    exact (Except.ok.inj hok).symm
  subst hr
  show total_rows_to_process num_questions num_options counts.length = num_questions
  unfold total_rows_to_process
  refine min_eq_left ?_
  rw [Nat.le_div_iff_mul_le hopt]
  exact hge

/-- Claim C10 witness: 1 question of 2 options with 2 detected bubbles. -/
theorem questions_processed_equals_num_questions_witness :
    (mk_processing_result [600, 0] 1 2 10 20 500).questions_processed = 1 :=
  questions_processed_equals_num_questions [600, 0] 1 2 10 20 500 (by decide)
    (mk_processing_result [600, 0] 1 2 10 20 500) rfl

/-- Translated from detect_bubbles_with_threshold: keep the contours whose
bounding box (w, h) satisfies w, h at least min_size, w, h at most max_size
when one is given, and whose aspect w / h lies in the given range.  A
contour is represented by its bounding box. -/
def detect_bubbles_with_threshold (boxes : List (ℕ × ℕ)) (min_size : ℕ)
    (max_size : Option ℕ) (ar_lo ar_hi : ℚ) : List (ℕ × ℕ) :=
  boxes.filter fun b =>
    decide (min_size ≤ b.1) && decide (min_size ≤ b.2) &&
    max_size.all (fun m => decide (b.1 ≤ m) && decide (b.2 ≤ m)) &&
    decide (ar_lo ≤ (b.1 : ℚ) / (b.2 : ℚ)) &&
    decide ((b.1 : ℚ) / (b.2 : ℚ) ≤ ar_hi)

/-- Translated from multi_scale_bubble_detection: the 7 size ranges. -/
def size_ranges : List (ℕ × ℕ) :=
  [(4, 12), (6, 15), (8, 18), (10, 22), (12, 25), (15, 30), (18, 35)]

/-- Translated from multi_scale_bubble_detection: the 4 aspect ranges. -/
def ar_ranges : List (ℚ × ℚ) :=
  [(1/2, 3/2), (7/10, 13/10), (4/5, 6/5), (9/10, 11/10)]

/-- The 28 parameter combinations in the order the two nested loops of
multi_scale_bubble_detection visit them: size range outer, aspect range
inner. -/
def combos : List ((ℕ × ℕ) × (ℚ × ℚ)) :=
  (size_ranges.map (fun s => ar_ranges.map (fun a => (s, a)))).flatten

/-- Number of bubbles one parameter combination finds on the given boxes. -/
def combo_found (boxes : List (ℕ × ℕ)) (c : (ℕ × ℕ) × (ℚ × ℚ)) : ℕ :=
  (detect_bubbles_with_threshold boxes c.1.1 (some c.1.2) c.2.1 c.2.2).length

/-- Proximity score one parameter combination attains on the given boxes. -/
def combo_score (boxes : List (ℕ × ℕ)) (expected : ℕ)
    (c : (ℕ × ℕ) × (ℚ × ℚ)) : ℚ :=
  calculate_proximity_score (combo_found boxes c) expected

/-- The record kept for the best combination by
multi_scale_bubble_detection (the bubble list itself is summarised by its
count). -/
structure DetectionResult where
  count : ℕ
  score : ℚ
  min_size : ℕ
  max_size : ℕ
  ar_lo : ℚ
  ar_hi : ℚ
deriving DecidableEq, Repr

/-- Translated from multi_scale_bubble_detection: the default result
returned when no combination strictly improves on the initial best score
of 0. -/
def default_detection_result : DetectionResult :=
  ⟨0, 0, 10, 25, 1/2, 3/2⟩

/-- The record built from a winning combination. -/
def detection_result_of (boxes : List (ℕ × ℕ)) (expected : ℕ)
    (c : (ℕ × ℕ) × (ℚ × ℚ)) : DetectionResult :=
  ⟨combo_found boxes c, combo_score boxes expected c, c.1.1, c.1.2, c.2.1, c.2.2⟩

/-- Translated from multi_scale_bubble_detection: scan the 28 combinations
in loop order, keeping the first whose score strictly exceeds the best so
far (initially 0); if none does, return the default result. -/
def multi_scale_bubble_detection (boxes : List (ℕ × ℕ)) (expected : ℕ) :
    DetectionResult :=
  match (bestScan (combo_score boxes expected) combos 0 none 0).1 with
  | some (_, c) => detection_result_of boxes expected c
  | none => default_detection_result

/-- Claim C8 (amended): the grid search covers exactly the 7 x 4 = 28
combinations; whenever some combination attains a positive score, the
result is built from the first combination attaining the maximum score
(every earlier combination scores strictly lower and none scores
higher); but when every combination scores 0 (a 28-way tie at the highest
score), the fixed default result is returned instead of the first
combination in search order. -/
theorem multi_scale_detection_spec (boxes : List (ℕ × ℕ)) (expected : ℕ) :
    combos.length = 28 ∧
    ((∃ c ∈ combos, 0 < combo_score boxes expected c) →
      ∃ i, ∃ hi : i < combos.length,
        multi_scale_bubble_detection boxes expected =
          detection_result_of boxes expected (combos.get ⟨i, hi⟩) ∧
        (∀ j, ∀ hj : j < combos.length, j < i →
          combo_score boxes expected (combos.get ⟨j, hj⟩) <
            combo_score boxes expected (combos.get ⟨i, hi⟩)) ∧
        (∀ c ∈ combos, combo_score boxes expected c ≤
          combo_score boxes expected (combos.get ⟨i, hi⟩))) ∧
    ((∀ c ∈ combos, combo_score boxes expected c ≤ 0) →
      multi_scale_bubble_detection boxes expected = default_detection_result) := by
  refine ⟨by decide, fun himp => ?_, fun hzero => ?_⟩
  · obtain ⟨i, hi, heq, _, hbef, hmax⟩ :=
      bestScan_improve (combo_score boxes expected) combos 0 none 0 himp
    refine ⟨i, hi, ?_, hbef, hmax⟩
    unfold multi_scale_bubble_detection
    rw [heq]
  · unfold multi_scale_bubble_detection
    rw [bestScan_of_forall_le (combo_score boxes expected) combos 0 none 0 hzero]

/-- Claim C8 counterexample: on an image where every combination finds 0
bubbles against 4 expected, all 28 combinations tie at the highest score 0,
yet the returned result is the default (size range 10-25), not the first
combination in search order (size range 4-12), refuting that ties at the
highest score are broken by search order. -/
theorem multi_scale_detection_counterexample :
    (∀ c ∈ combos, combo_score ([] : List (ℕ × ℕ)) 4 c = 0) ∧
    multi_scale_bubble_detection [] 4 = default_detection_result ∧
    combos.head? = some ((4, 12), (1/2, 3/2)) ∧
    default_detection_result ≠ detection_result_of [] 4 ((4, 12), (1/2, 3/2)) := by
  have hz : ∀ c ∈ combos, combo_score ([] : List (ℕ × ℕ)) 4 c = 0 := by
    intro c _
    show calculate_proximity_score (combo_found [] c) 4 = 0
    have hf : combo_found [] c = 0 := rfl
    rw [hf]
    norm_num [calculate_proximity_score]
  refine ⟨hz, ?_, rfl, ?_⟩
  · unfold multi_scale_bubble_detection
    rw [bestScan_of_forall_le (combo_score [] 4) combos 0 none 0
      (fun c hc => le_of_eq (hz c hc))]
  · intro hEq
    have h10 := congrArg DetectionResult.min_size hEq
    simp [default_detection_result, detection_result_of] at h10

/-- Claim C8 (amended) witness: 4 boxes of size 10 x 10 against 4 expected
bubbles give the first combination a positive score, so the search returns
the first maximal combination. -/
theorem multi_scale_detection_spec_witness :
    (∃ c ∈ combos, 0 < combo_score (List.replicate 4 ((10 : ℕ), (10 : ℕ))) 4 c) ∧
    (∃ i, ∃ hi : i < combos.length,
      multi_scale_bubble_detection (List.replicate 4 (10, 10)) 4 =
        detection_result_of (List.replicate 4 (10, 10)) 4 (combos.get ⟨i, hi⟩) ∧
      (∀ j, ∀ hj : j < combos.length, j < i →
        combo_score (List.replicate 4 (10, 10)) 4 (combos.get ⟨j, hj⟩) <
          combo_score (List.replicate 4 (10, 10)) 4 (combos.get ⟨i, hi⟩)) ∧
      (∀ c ∈ combos, combo_score (List.replicate 4 (10, 10)) 4 c ≤
        combo_score (List.replicate 4 (10, 10)) 4 (combos.get ⟨i, hi⟩))) := by
  have hfound : combo_found (List.replicate 4 (10, 10)) ((4, 12), (1/2, 3/2)) = 4 := by
    norm_num [combo_found, detect_bubbles_with_threshold, List.replicate,
      List.filter_cons, List.filter_nil, Bool.and_eq_true, decide_eq_true_eq]
  have hpos : 0 < combo_score (List.replicate 4 ((10 : ℕ), (10 : ℕ))) 4
      ((4, 12), (1/2, 3/2)) := by
    show 0 < calculate_proximity_score
      (combo_found (List.replicate 4 (10, 10)) ((4, 12), (1/2, 3/2))) 4
    rw [hfound]
    norm_num [calculate_proximity_score, max_def, min_def]
  have hmem : (((4 : ℕ), (12 : ℕ)), ((1/2 : ℚ), (3/2 : ℚ))) ∈ combos := by
    simp [combos, size_ranges, ar_ranges]
  have himp : ∃ c ∈ combos,
      0 < combo_score (List.replicate 4 ((10 : ℕ), (10 : ℕ))) 4 c :=
    ⟨_, hmem, hpos⟩
  exact ⟨himp, (multi_scale_detection_spec (List.replicate 4 (10, 10)) 4).2.1 himp⟩
